import Mathlib

/-!
Shallow embedding of the quiz grading and analytics core of the CSIA training
portal (src/src/services/api.ts).  The grading loop of submitQuizAttempt and
the aggregation of getQuizAnalytics are translated as pure Lean functions over
explicit data; JavaScript numbers appearing in the analytics division are
modelled by a sum type carrying exact rationals together with the special
values NaN and signed infinity, since the division totalScore / totalPoints
can hit a zero divisor.
-/

namespace CSIA

/-- One option of a question, as shaped by getQuizById
(fields id, optionText, isCorrect of the formatted option). -/
structure QuestionOption where
  id : String
  optionText : String
  isCorrect : Bool
deriving DecidableEq, Repr

/-- One question of a quiz, as shaped by getQuizById. -/
structure Question where
  id : String
  questionText : String
  options : List QuestionOption
deriving DecidableEq, Repr

/-- A quiz as returned by getQuizById (only the fields grading consults). -/
structure Quiz where
  id : String
  title : String
  questions : List Question
deriving DecidableEq, Repr

/-- A submitted (questionId, selectedOptionId) pair, the element type of the
answers argument of submitQuizAttempt. -/
structure SubmittedAnswer where
  questionId : String
  selectedOptionId : String
deriving DecidableEq, Repr

/-- An element of answerResults in submitQuizAttempt. -/
structure GradedAnswer where
  questionId : String
  selectedOptionId : String
  isCorrect : Bool
deriving DecidableEq, Repr

/-- The triple (totalScore, totalPoints, answerResults) accumulated by the
grading loop of submitQuizAttempt. -/
structure GradeResult where
  score : Nat
  totalPoints : Nat
  answers : List GradedAnswer
deriving DecidableEq, Repr

/-- One iteration of the for-loop of submitQuizAttempt
(src/src/services/api.ts, lines 411-428): find the question by id, count the
answer, grade it via the selected option flag, push the graded answer. -/
def gradeStep (quiz : Quiz) (acc : GradeResult) (answer : SubmittedAnswer) : GradeResult :=
  match quiz.questions.find? (fun q => q.id == answer.questionId) with
  | some question =>
      let isCorrect :=
        ((question.options.find? (fun opt => opt.id == answer.selectedOptionId)).map
          (fun opt => opt.isCorrect)).getD false
      { score := acc.score + (if isCorrect then 1 else 0)
        totalPoints := acc.totalPoints + 1
        answers := acc.answers ++ [⟨answer.questionId, answer.selectedOptionId, isCorrect⟩] }
  | none => acc

/-- The pure grading core of submitQuizAttempt: the loop over the submitted
answers starting from totalScore = 0, totalPoints = 0, answerResults = []. -/
def gradeAttempt (quiz : Quiz) (answers : List SubmittedAnswer) : GradeResult :=
  answers.foldl (gradeStep quiz) ⟨0, 0, []⟩

/-- Grading of a single submitted answer: none when the questionId matches no
question of the quiz, otherwise the GradedAnswer the loop pushes. -/
def gradeOne (quiz : Quiz) (answer : SubmittedAnswer) : Option GradedAnswer :=
  (quiz.questions.find? (fun q => q.id == answer.questionId)).map (fun question =>
    ⟨answer.questionId, answer.selectedOptionId,
      ((question.options.find? (fun opt => opt.id == answer.selectedOptionId)).map
        (fun opt => opt.isCorrect)).getD false⟩)

/-- The loop of submitQuizAttempt, started from an arbitrary accumulator,
equals the accumulator extended by the graded matching answers. -/
theorem gradeAttempt_go (quiz : Quiz) (answers : List SubmittedAnswer) :
    ∀ (acc : GradeResult),
      answers.foldl (gradeStep quiz) acc =
        { score := acc.score + (answers.filterMap (gradeOne quiz)).countP (fun g => g.isCorrect)
          totalPoints := acc.totalPoints + (answers.filterMap (gradeOne quiz)).length
          answers := acc.answers ++ answers.filterMap (gradeOne quiz) } := by
  induction answers with
  | nil => intro acc; simp
  | cons a answers ih =>
      intro acc
      cases h : quiz.questions.find? (fun q => q.id == a.questionId) with
      | none =>
          have hg : gradeOne quiz a = none := by simp [gradeOne, h]
          have hstep : gradeStep quiz acc a = acc := by simp [gradeStep, h]
          simp only [List.foldl_cons, List.filterMap_cons, hg, hstep]
          exact ih acc
      | some question =>
          have hg : gradeOne quiz a =
              some ⟨a.questionId, a.selectedOptionId,
                ((question.options.find? (fun opt => opt.id == a.selectedOptionId)).map
                  (fun opt => opt.isCorrect)).getD false⟩ := by
            simp [gradeOne, h]
          simp only [List.foldl_cons, List.filterMap_cons, hg]
          rw [ih]
          simp [gradeStep, h, List.countP_cons, Nat.add_assoc, Nat.add_comm 1]
          omega

/-- The grading core, characterized by the graded matching answers: score is
the number of correct graded answers, totalPoints their count, and the output
list follows the input order. -/
theorem gradeAttempt_eq (quiz : Quiz) (answers : List SubmittedAnswer) :
    gradeAttempt quiz answers =
      { score := (answers.filterMap (gradeOne quiz)).countP (fun g => g.isCorrect)
        totalPoints := (answers.filterMap (gradeOne quiz)).length
        answers := answers.filterMap (gradeOne quiz) } := by
  simpa [gradeAttempt] using gradeAttempt_go quiz answers ⟨0, 0, []⟩

/-! ### JavaScript number values reachable in the analytics averageScore

getQuizAnalytics computes Math.round((totalScore / totalPoints) * 100) over
integer operands in IEEE binary64 arithmetic.  Every finite outcome passes
through Math.round, so the reachable values are integers together with NaN
and the two infinities produced by a zero divisor, and a sum type with an
integer payload models every value the code can store in averageScore.  The
finite branch is computed by jsAvgRound below, which reproduces the binary64
evaluation exactly: the division and the multiplication by 100 each round
once to 53 significant bits (round to nearest, ties to even), and Math.round
takes the closest integer with ties toward positive infinity.  Exponent
overflow and subnormals are not modelled; they are unreachable for operands
in the integer range binary64 represents exactly, which already bounds the
ranges where the modelled double sums are themselves exact. -/

/-- A JavaScript number as it can arise in an averageScore field: a finite
integer, NaN, or a signed infinity. -/
inductive JSNum where
  | num : ℤ → JSNum
  | posInf : JSNum
  | negInf : JSNum
  | nan : JSNum
deriving DecidableEq, Repr

/-- Number of binary digits of n (0 for 0), by an eleven-step binary search
over the shift amount; correct for every n below 2 to the 2048, far beyond
any value reachable here, and kernel-computable (Nat.log2 is not). -/
def bitlen (n : ℕ) : ℕ :=
  if n = 0 then 0 else
    (List.foldl (fun e k => if 0 < n >>> (e + k) then e + k else e) 0
      [1024, 512, 256, 128, 64, 32, 16, 8, 4, 2, 1]) + 1

/-- The integer nearest to a / b for positive b, ties to even: the IEEE
binary64 rounding rule applied to an exact nonnegative ratio. -/
def rdNearestEven (a b : ℕ) : ℕ :=
  let q := a / b
  let r := a % b
  if 2 * r < b then q
  else if b < 2 * r then q + 1
  else if q % 2 = 0 then q else q + 1

/-- Floor of the base-two logarithm of n / d for positive n and d: the bit
length difference, corrected down by one when the leading digits compare the
other way. -/
def ratLog2 (n d : ℕ) : ℤ :=
  let L : ℤ := (bitlen n : ℤ) - (bitlen d : ℤ)
  if d * 2 ^ L.toNat ≤ n * 2 ^ (-L).toNat then L else L - 1

/-- The binary64 value nearest to n / d for positive n and d, as a pair of a
mantissa m between 2 to the 52 and 2 to the 53 and an exponent, with value
m times 2 to the exponent: one correct rounding of the exact quotient, as
IEEE division performs. -/
def fl53Quot (n d : ℕ) : ℕ × ℤ :=
  let e := ratLog2 n d
  let sh : ℤ := 52 - e
  let m := if 0 ≤ sh then rdNearestEven (n * 2 ^ sh.toNat) d
           else rdNearestEven n (d * 2 ^ (-sh).toNat)
  (m, e - 52)

/-- The binary64 value nearest to the positive integer M, as a
mantissa-exponent pair: one correct rounding of the exact product, as IEEE
multiplication performs on an exact integer product. -/
def fl53Int (M : ℕ) : ℕ × ℤ :=
  let b := bitlen M
  if b ≤ 53 then (M, 0) else (rdNearestEven M (2 ^ (b - 53)), (b : ℤ) - 53)

/-- Math.round of the signed value M times 2 to the e: the closest integer,
ties toward positive infinity, evaluated on the exact value of the double as
the ECMAScript specification defines it. -/
def roundHalfUpM (M : ℤ) (e : ℤ) : ℤ :=
  if 0 ≤ e then M * 2 ^ e.toNat
  else Int.fdiv (2 * M + 2 ^ (-e).toNat) (2 ^ ((-e).toNat + 1))

/-- Math.round((s / t) * 100) in IEEE binary64, for a nonzero divisor t:
round the quotient of the absolute values to 53 bits, multiply the mantissa
by 100 and round to 53 bits again, reattach the sign, and take the closest
integer with ties toward positive infinity.  A zero s yields 0 (the signed
zeros both round to zero).  Binary64 makes this differ from rounding the
exact ratio: at s = 23, t = 40 the doubles give 57 while the exact value
57.5 rounds to 58. -/
def jsAvgRound (s t : ℤ) : ℤ :=
  if s = 0 then 0
  else
    let p := fl53Quot s.natAbs t.natAbs
    let q := fl53Int (p.1 * 100)
    let sgn : ℤ := if (0 < s ↔ 0 < t) then 1 else -1
    roundHalfUpM (sgn * (q.1 : ℤ)) (p.2 + q.2)

/-- Whether the value is an ordinary (finite) number. -/
def JSNum.isFin : JSNum → Bool
  | .num _ => true
  | _ => false

/-- The integer carried by a finite value (0 for the special values; only
consulted under an isFin hypothesis). -/
def JSNum.val : JSNum → ℤ
  | .num q => q
  | _ => 0

/-- JavaScript subtraction, as evaluated by the leaderboard comparator. -/
def jsSub : JSNum → JSNum → JSNum
  | .num a, .num b => .num (a - b)
  | .nan, _ => .nan
  | _, .nan => .nan
  | .posInf, .posInf => .nan
  | .posInf, _ => .posInf
  | .negInf, .negInf => .nan
  | .negInf, _ => .negInf
  | .num _, .posInf => .negInf
  | .num _, .negInf => .posInf

/-- Whether a comparator result is at most zero; false for NaN, matching the
JavaScript comparisons NaN <= 0 and NaN < 0 both being false. -/
def JSNum.leZero : JSNum → Bool
  | .num q => decide (q ≤ 0)
  | .posInf => false
  | .negInf => true
  | .nan => false

/-! ### The analytics aggregator getQuizAnalytics -/

/-- The joined profile row (username, full_name) attached to an attempt row by
the select of getQuizAnalytics; absent when the profile cannot be resolved. -/
structure ProfileRow where
  username : String
  full_name : String
deriving DecidableEq, Repr

/-- One row of the quiz_attempts select of getQuizAnalytics: the attempt
fields it reads plus the joined quiz title and profile (either join may be
null). -/
structure AttemptRow where
  quiz_id : String
  user_id : String
  score : ℤ
  total_points : ℤ
  quizzes : Option String
  profiles : Option ProfileRow
deriving DecidableEq, Repr

/-- The quiz display title of a row: attempt.quizzes?.title with the
JavaScript falsy fallback to the placeholder label. -/
def titleLabel (r : AttemptRow) : String :=
  match r.quizzes with
  | some t => if t = "" then "Unknown Quiz" else t
  | none => "Unknown Quiz"

/-- The user display name of a row: full_name, else username, else the
placeholder, following the JavaScript falsy-or chain. -/
def userNameLabel (r : AttemptRow) : String :=
  match r.profiles with
  | some p =>
      if p.full_name = "" then (if p.username = "" then "Unknown User" else p.username)
      else p.full_name
  | none => "Unknown User"

/-- The per-quiz accumulator of getQuizAnalytics (the quizStats map values). -/
structure QuizStat where
  title : String
  attempts : ℕ
  totalScore : ℤ
  totalPoints : ℤ
deriving DecidableEq, Repr

/-- The per-user accumulator of getQuizAnalytics (the userStats map values). -/
structure UserStat where
  userId : String
  userName : String
  attempts : ℕ
  totalScore : ℤ
  totalPoints : ℤ
deriving DecidableEq, Repr

/-- Lookup in an insertion-ordered association list, the model of
Map.prototype.get / has. -/
def lookupKey {β : Type} (k : String) : List (String × β) → Option β
  | [] => none
  | p :: m => if p.1 = k then some p.2 else lookupKey k m

/-- One Map update of the aggregation loop: insert a fresh zero record when
the key is absent, then apply the increments to the record of the key.
Matches the has / set / get pattern of getQuizAnalytics. -/
def updateGroup {β : Type} (k : String) (init : β) (bump : β → β)
    (m : List (String × β)) : List (String × β) :=
  if (lookupKey k m).isSome then
    m.map (fun p => if p.1 = k then (p.1, bump p.2) else p)
  else m ++ [(k, bump init)]

/-- The attempts.forEach aggregation of getQuizAnalytics over one of the two
maps, generic in the grouping key, the fresh record, and the increments. -/
def groupFold {ρ β : Type} (key : ρ → String) (init : ρ → β) (bump : ρ → β → β)
    (rows : List ρ) : List (String × β) :=
  rows.foldl (fun m r => updateGroup (key r) (init r) (bump r) m) []

/-- The quizStats map of getQuizAnalytics after the forEach, as an
insertion-ordered association list. -/
def quizStats (rows : List AttemptRow) : List (String × QuizStat) :=
  groupFold (fun r => r.quiz_id)
    (fun r => { title := titleLabel r, attempts := 0, totalScore := 0, totalPoints := 0 })
    (fun r s => { s with attempts := s.attempts + 1, totalScore := s.totalScore + r.score,
                         totalPoints := s.totalPoints + r.total_points })
    rows

/-- The userStats map of getQuizAnalytics after the forEach. -/
def userStats (rows : List AttemptRow) : List (String × UserStat) :=
  groupFold (fun r => r.user_id)
    (fun r => { userId := r.user_id, userName := userNameLabel r, attempts := 0,
                totalScore := 0, totalPoints := 0 })
    (fun r s => { s with attempts := s.attempts + 1, totalScore := s.totalScore + r.score,
                         totalPoints := s.totalPoints + r.total_points })
    rows

/-- The averageScore expression of getQuizAnalytics:
attempts > 0 ? Math.round((totalScore / totalPoints) * 100) : 0.
The guard tests the attempt count, not the point sum, so a zero point sum
reaches the division: totalScore / 0 is NaN for a zero totalScore and a
signed infinity otherwise, and Math.round passes NaN and infinities through.
On a nonzero point sum the value is the binary64 evaluation jsAvgRound. -/
def averageScoreOf (attempts : ℕ) (totalScore totalPoints : ℤ) : JSNum :=
  if 0 < attempts then
    if totalPoints ≠ 0 then .num (jsAvgRound totalScore totalPoints)
    else if 0 < totalScore then .posInf
    else if totalScore < 0 then .negInf
    else .nan
  else .num 0

/-- One record of the quizAnalytics output list. -/
structure QuizAnalytic where
  quizTitle : String
  attempts : ℕ
  averageScore : JSNum
deriving DecidableEq, Repr

/-- One record of the topTrainees output list. -/
structure TopTrainee where
  userId : String
  userName : String
  attempts : ℕ
  averageScore : JSNum
deriving DecidableEq, Repr

/-- The result record of getQuizAnalytics. -/
structure AnalyticsResult where
  totalAttempts : ℕ
  quizAnalytics : List QuizAnalytic
  topTrainees : List TopTrainee
deriving DecidableEq, Repr

/-- The leaderboard comparator (a, b) => b.averageScore - a.averageScore read
as the precedence relation of a stable sort: a may precede b when the
comparator value is at most zero. -/
def traineeBefore (a b : TopTrainee) : Prop :=
  (jsSub b.averageScore a.averageScore).leZero = true

instance : DecidableRel traineeBefore :=
  fun a b => inferInstanceAs (Decidable ((jsSub b.averageScore a.averageScore).leZero = true))

/-- The map from a quizStats entry to its quizAnalytics record. -/
def toQuizRecord (p : String × QuizStat) : QuizAnalytic :=
  { quizTitle := p.2.title, attempts := p.2.attempts,
    averageScore := averageScoreOf p.2.attempts p.2.totalScore p.2.totalPoints }

/-- The map from a userStats entry to its leaderboard record. -/
def toTraineeRecord (p : String × UserStat) : TopTrainee :=
  { userId := p.2.userId, userName := p.2.userName, attempts := p.2.attempts,
    averageScore := averageScoreOf p.2.attempts p.2.totalScore p.2.totalPoints }

/-- The pure core of getQuizAnalytics over the fetched attempt rows.  The
sort models Array.prototype.sort with the comparator above: ECMAScript
requires a stable sort, and for a consistent comparator insertion sort with
the precedence relation realizes the unique stable result; when NaN averages
make the comparator inconsistent the engine order is unspecified and this
model fixes the insertion-sort outcome. -/
def getQuizAnalyticsCore (rows : List AttemptRow) : AnalyticsResult :=
  { totalAttempts := rows.length
    quizAnalytics := (quizStats rows).map toQuizRecord
    topTrainees :=
      (List.insertionSort traineeBefore ((userStats rows).map toTraineeRecord)).take 10 }

/-! ### Characterization of the two group-by folds -/

/-- The filter-and-sum reading of one map entry: the record of key k, when k
occurs among the keys, is the increments of all rows of key k applied to the
fresh record built from the first such row. -/
def groupVal {ρ β : Type} (key : ρ → String) (init : ρ → β) (bump : ρ → β → β)
    (rows : List ρ) (k : String) : Option β :=
  match rows.filter (fun r => key r == k) with
  | [] => none
  | r0 :: rest => some ((r0 :: rest).foldl (fun s r => bump r s) (init r0))

theorem lookupKey_nil {β : Type} (k : String) :
    lookupKey k ([] : List (String × β)) = none := rfl

theorem lookupKey_cons {β : Type} (k : String) (p : String × β) (m : List (String × β)) :
    lookupKey k (p :: m) = if p.1 = k then some p.2 else lookupKey k m := rfl

theorem lookupKey_map_bump {β : Type} (k : String) (b : β → β) (m : List (String × β)) :
    lookupKey k (m.map (fun p => if p.1 = k then (p.1, b p.2) else p)) =
      (lookupKey k m).map b := by
  induction m with
  | nil => simp [lookupKey_nil]
  | cons p m ih =>
      by_cases h : p.1 = k
      · simp [lookupKey_cons, h]
      · simp [lookupKey_cons, h, ih]

theorem lookupKey_map_bump_ne {β : Type} (k k' : String) (h : k ≠ k') (b : β → β)
    (m : List (String × β)) :
    lookupKey k (m.map (fun p => if p.1 = k' then (p.1, b p.2) else p)) =
      lookupKey k m := by
  induction m with
  | nil => simp [lookupKey_nil]
  | cons p m ih =>
      by_cases hp' : p.1 = k'
      · simp [lookupKey_cons, hp', Ne.symm h, ih]
      · simp [lookupKey_cons, hp', ih]

theorem lookupKey_append_single_ne {β : Type} (k k' : String) (v : β)
    (m : List (String × β)) (h : k ≠ k') :
    lookupKey k (m ++ [(k', v)]) = lookupKey k m := by
  induction m with
  | nil => simp [lookupKey_nil, lookupKey_cons, Ne.symm h]
  | cons p m ih =>
      by_cases hp : p.1 = k
      · simp [lookupKey_cons, hp]
      · simp [lookupKey_cons, hp, ih]

theorem lookupKey_append_single_none {β : Type} (k : String) (v : β)
    (m : List (String × β)) (h : lookupKey k m = none) :
    lookupKey k (m ++ [(k, v)]) = some v := by
  induction m with
  | nil => simp [lookupKey_nil, lookupKey_cons]
  | cons p m ih =>
      by_cases hp : p.1 = k
      · simp [lookupKey_cons, hp] at h
      · simp [lookupKey_cons, hp] at h ⊢
        exact ih h

theorem lookupKey_updateGroup_ne {β : Type} (k k' : String) (i : β) (b : β → β)
    (m : List (String × β)) (h : k ≠ k') :
    lookupKey k (updateGroup k' i b m) = lookupKey k m := by
  unfold updateGroup
  by_cases hs : (lookupKey k' m).isSome
  · rw [if_pos hs]
    exact lookupKey_map_bump_ne k k' h b m
  · rw [if_neg hs]
    exact lookupKey_append_single_ne k k' (b i) m h

theorem lookupKey_updateGroup_eq {β : Type} (k : String) (i : β) (b : β → β)
    (m : List (String × β)) :
    lookupKey k (updateGroup k i b m) =
      some (b ((lookupKey k m).getD i)) := by
  unfold updateGroup
  cases h : lookupKey k m with
  | none =>
      simp only [h, Option.isSome_none, Bool.false_eq_true, if_false, Option.getD_none]
      exact lookupKey_append_single_none k (b i) m h
  | some s =>
      simp only [h, Option.isSome_some, if_true, Option.getD_some]
      rw [lookupKey_map_bump, h, Option.map_some']

/-- The value a group-by fold associates to a key equals its filter-and-sum
reading. -/
theorem lookupKey_groupFold {ρ β : Type} (key : ρ → String) (init : ρ → β)
    (bump : ρ → β → β) (rows : List ρ) (k : String) :
    lookupKey k (groupFold key init bump rows) = groupVal key init bump rows k := by
  induction rows using List.reverseRecOn with
  | nil => simp [groupFold, groupVal, lookupKey_nil]
  | append_singleton rows r ih =>
      have hfold : groupFold key init bump (rows ++ [r]) =
          updateGroup (key r) (init r) (bump r) (groupFold key init bump rows) := by
        simp [groupFold]
      rw [hfold]
      by_cases hk : key r = k
      · subst hk
        rw [lookupKey_updateGroup_eq, ih]
        unfold groupVal
        rw [List.filter_append]
        have hone : List.filter (fun x => key x == key r) [r] = [r] := by simp
        rw [hone]
        cases hf : List.filter (fun x => key x == key r) rows with
        | nil => simp
        | cons r0 rest => simp [List.foldl_append]
      · rw [lookupKey_updateGroup_ne _ _ _ _ _ (Ne.symm hk), ih]
        unfold groupVal
        rw [List.filter_append]
        have hone : List.filter (fun x => key x == k) [r] = [] := by simp [hk]
        rw [hone, List.append_nil]

/-! ### Keys of the group-by folds: first-occurrence order without duplicates -/

/-- One step of first-occurrence deduplication: append the key unless it is
already present.  This is how a Map acquires its key set in insertion order. -/
def dedupStep (acc : List String) (x : String) : List String :=
  if x ∈ acc then acc else acc ++ [x]

/-- The keys of a JavaScript Map filled by the aggregation loop: the distinct
values in first-occurrence order. -/
def dedupFirst (l : List String) : List String :=
  l.foldl dedupStep []

theorem mem_dedupFold (l : List String) :
    ∀ (acc : List String) (y : String),
      y ∈ l.foldl dedupStep acc ↔ y ∈ acc ∨ y ∈ l := by
  induction l with
  | nil => intro acc y; simp
  | cons x l ih =>
      intro acc y
      rw [List.foldl_cons, ih]
      by_cases hx : x ∈ acc
      · unfold dedupStep
        rw [if_pos hx]
        constructor
        · rintro (h | h)
          · exact Or.inl h
          · exact Or.inr (List.mem_cons_of_mem x h)
        · rintro (h | h)
          · exact Or.inl h
          · rcases List.mem_cons.mp h with h | h
            · exact Or.inl (h ▸ hx)
            · exact Or.inr h
      · unfold dedupStep
        rw [if_neg hx]
        simp only [List.mem_append, List.mem_singleton, List.mem_cons]
        tauto

theorem mem_dedupFirst (l : List String) (y : String) :
    y ∈ dedupFirst l ↔ y ∈ l := by
  rw [dedupFirst, mem_dedupFold]
  simp

theorem nodup_dedupFold (l : List String) :
    ∀ (acc : List String), acc.Nodup → (l.foldl dedupStep acc).Nodup := by
  induction l with
  | nil => intro acc h; simpa using h
  | cons x l ih =>
      intro acc h
      rw [List.foldl_cons]
      apply ih
      unfold dedupStep
      by_cases hx : x ∈ acc
      · rwa [if_pos hx]
      · rw [if_neg hx]
        simp [List.nodup_append, h, hx]

theorem nodup_dedupFirst (l : List String) : (dedupFirst l).Nodup :=
  nodup_dedupFold l [] List.nodup_nil

theorem dedupFirst_append_single (l : List String) (x : String) :
    dedupFirst (l ++ [x]) = dedupStep (dedupFirst l) x := by
  simp [dedupFirst, List.foldl_append]

theorem lookupKey_isSome_iff_mem_keys {β : Type} (k : String) (m : List (String × β)) :
    (lookupKey k m).isSome ↔ k ∈ m.map Prod.fst := by
  induction m with
  | nil => simp [lookupKey_nil]
  | cons p m ih =>
      by_cases hp : p.1 = k
      · simp [lookupKey_cons, hp]
      · simp [lookupKey_cons, hp, ih, Ne.symm hp]

theorem keys_updateGroup {β : Type} (k : String) (i : β) (b : β → β)
    (m : List (String × β)) :
    (updateGroup k i b m).map Prod.fst =
      if (lookupKey k m).isSome then m.map Prod.fst else m.map Prod.fst ++ [k] := by
  unfold updateGroup
  by_cases hs : (lookupKey k m).isSome
  · rw [if_pos hs, if_pos hs, List.map_map]
    apply List.map_congr_left
    intro p _
    by_cases hp : p.1 = k
    · simp [hp]
    · simp [hp]
  · rw [if_neg hs, if_neg hs, List.map_append]
    rfl

/-- The key list of a group-by fold is the deduplicated key trace of the rows,
in first-occurrence order. -/
theorem keys_groupFold {ρ β : Type} (key : ρ → String) (init : ρ → β)
    (bump : ρ → β → β) (rows : List ρ) :
    (groupFold key init bump rows).map Prod.fst = dedupFirst (rows.map key) := by
  induction rows using List.reverseRecOn with
  | nil => simp [groupFold, dedupFirst]
  | append_singleton rows r ih =>
      have hfold : groupFold key init bump (rows ++ [r]) =
          updateGroup (key r) (init r) (bump r) (groupFold key init bump rows) := by
        simp [groupFold]
      rw [hfold, keys_updateGroup, ih, List.map_append, List.map_singleton,
        dedupFirst_append_single]
      unfold dedupStep
      by_cases hmem : key r ∈ dedupFirst (rows.map key)
      · rw [if_pos hmem, if_pos]
        rw [← ih] at hmem
        exact (lookupKey_isSome_iff_mem_keys _ _).mpr hmem
      · rw [if_neg hmem, if_neg]
        intro hs
        exact hmem (ih ▸ (lookupKey_isSome_iff_mem_keys _ _).mp hs)

theorem lookupKey_some_mem {β : Type} (k : String) (s : β) (m : List (String × β))
    (h : lookupKey k m = some s) : (k, s) ∈ m := by
  induction m with
  | nil => simp [lookupKey_nil] at h
  | cons p m ih =>
      rw [lookupKey_cons] at h
      by_cases hp : p.1 = k
      · rw [if_pos hp] at h
        have : p = (k, s) := by
          cases p
          simp at hp h
          simp [hp, h]
        exact this ▸ List.mem_cons_self _ _
      · rw [if_neg hp] at h
        exact List.mem_cons_of_mem _ (ih h)

theorem lookupKey_eq_some_of_mem {β : Type} (k : String) (s : β)
    (m : List (String × β)) (hnd : (m.map Prod.fst).Nodup) (h : (k, s) ∈ m) :
    lookupKey k m = some s := by
  induction m with
  | nil => simp at h
  | cons p m ih =>
      rw [List.map_cons, List.nodup_cons] at hnd
      rcases List.mem_cons.mp h with h | h
      · rw [← h, lookupKey_cons]
        simp
      · rw [lookupKey_cons]
        have hk : k ∈ m.map Prod.fst := List.mem_map_of_mem Prod.fst h
        have hp : ¬ p.1 = k := fun hh => hnd.1 (hh ▸ hk)
        rw [if_neg hp]
        exact ih hnd.2 h

/-! ### The two map values as explicit sums over the grouped rows -/

/-- The rows of one quiz group, in encounter order. -/
def quizRows (rows : List AttemptRow) (qid : String) : List AttemptRow :=
  rows.filter (fun r => r.quiz_id == qid)

/-- The rows of one user group, in encounter order. -/
def userRows (rows : List AttemptRow) (uid : String) : List AttemptRow :=
  rows.filter (fun r => r.user_id == uid)

/-- Sum of the score field over a list of rows. -/
def sumScores (l : List AttemptRow) : ℤ :=
  (l.map (fun r => r.score)).sum

/-- Sum of the total_points field over a list of rows. -/
def sumPoints (l : List AttemptRow) : ℤ :=
  (l.map (fun r => r.total_points)).sum

theorem quizStat_fold_sums (l : List AttemptRow) :
    ∀ (s : QuizStat),
      l.foldl (fun s r =>
          ({ s with attempts := s.attempts + 1, totalScore := s.totalScore + r.score,
                    totalPoints := s.totalPoints + r.total_points } : QuizStat)) s =
        { title := s.title, attempts := s.attempts + l.length,
          totalScore := s.totalScore + sumScores l,
          totalPoints := s.totalPoints + sumPoints l } := by
  induction l with
  | nil => intro s; simp [sumScores, sumPoints]
  | cons r l ih =>
      intro s
      rw [List.foldl_cons, ih]
      simp only [sumScores, sumPoints, List.map_cons, List.sum_cons, List.length_cons,
        QuizStat.mk.injEq]
      exact ⟨trivial, by omega, by ring, by ring⟩

theorem userStat_fold_sums (l : List AttemptRow) :
    ∀ (s : UserStat),
      l.foldl (fun s r =>
          ({ s with attempts := s.attempts + 1, totalScore := s.totalScore + r.score,
                    totalPoints := s.totalPoints + r.total_points } : UserStat)) s =
        { userId := s.userId, userName := s.userName, attempts := s.attempts + l.length,
          totalScore := s.totalScore + sumScores l,
          totalPoints := s.totalPoints + sumPoints l } := by
  induction l with
  | nil => intro s; simp [sumScores, sumPoints]
  | cons r l ih =>
      intro s
      rw [List.foldl_cons, ih]
      simp only [sumScores, sumPoints, List.map_cons, List.sum_cons, List.length_cons,
        UserStat.mk.injEq]
      exact ⟨trivial, trivial, by omega, by ring, by ring⟩

/-- The quizStats entry of a quiz with at least one attempt row: the title of
the first row of the group and the summed counters of the whole group. -/
theorem quizStats_lookup (rows : List AttemptRow) (qid : String)
    (r0 : AttemptRow) (rest : List AttemptRow)
    (hf : quizRows rows qid = r0 :: rest) :
    lookupKey qid (quizStats rows) =
      some { title := titleLabel r0, attempts := (quizRows rows qid).length,
             totalScore := sumScores (quizRows rows qid),
             totalPoints := sumPoints (quizRows rows qid) } := by
  rw [quizStats, lookupKey_groupFold, groupVal]
  rw [quizRows] at hf
  rw [hf]
  have := quizStat_fold_sums (r0 :: rest)
    { title := titleLabel r0, attempts := 0, totalScore := 0, totalPoints := 0 }
  simp only [this, Option.some.injEq]
  rw [quizRows, hf]
  simp

/-- The userStats entry of a user with at least one attempt row. -/
theorem userStats_lookup (rows : List AttemptRow) (uid : String)
    (r0 : AttemptRow) (rest : List AttemptRow)
    (hf : userRows rows uid = r0 :: rest) :
    lookupKey uid (userStats rows) =
      some { userId := r0.user_id, userName := userNameLabel r0,
             attempts := (userRows rows uid).length,
             totalScore := sumScores (userRows rows uid),
             totalPoints := sumPoints (userRows rows uid) } := by
  rw [userStats, lookupKey_groupFold, groupVal]
  rw [userRows] at hf
  rw [hf]
  have := userStat_fold_sums (r0 :: rest)
    { userId := r0.user_id, userName := userNameLabel r0, attempts := 0,
      totalScore := 0, totalPoints := 0 }
  simp only [this, Option.some.injEq]
  rw [userRows, hf]
  simp

/-! ### Helper lemmas for the grading claims -/

theorem length_filterMap_eq_length_filter {α β : Type} (f : α → Option β) (l : List α) :
    (l.filterMap f).length = (l.filter (fun a => (f a).isSome)).length := by
  induction l with
  | nil => rfl
  | cons a l ih => cases h : f a <;> simp [List.filterMap_cons, h, ih]

/-- Appending one matching answer extends the grading result by exactly that
graded answer: one more totalPoints, one more score when it is correct. -/
theorem gradeAttempt_append_one (quiz : Quiz) (answers : List SubmittedAnswer)
    (a : SubmittedAnswer) (g : GradedAnswer) (h : gradeOne quiz a = some g) :
    gradeAttempt quiz (answers ++ [a]) =
      { score := (gradeAttempt quiz answers).score + (if g.isCorrect then 1 else 0)
        totalPoints := (gradeAttempt quiz answers).totalPoints + 1
        answers := (gradeAttempt quiz answers).answers ++ [g] } := by
  rw [gradeAttempt_eq, gradeAttempt_eq]
  simp [List.filterMap_append, h, List.countP_append, List.countP_cons]

/-- A single answer to a question with no correct option is graded false. -/
theorem gradeOne_no_correct_option (quiz : Quiz) (a : SubmittedAnswer)
    (question : Question)
    (hq : quiz.questions.find? (fun q => q.id == a.questionId) = some question)
    (hnone : ∀ o ∈ question.options, o.isCorrect = false) :
    gradeOne quiz a = some ⟨a.questionId, a.selectedOptionId, false⟩ := by
  rw [gradeOne, hq, Option.map_some']
  cases hf : question.options.find? (fun opt => opt.id == a.selectedOptionId) with
  | none => simp [hf]
  | some o =>
      have := hnone o (List.mem_of_find?_eq_some hf)
      simp [hf, this]

/-! ### Concrete fixtures used by witnesses and counterexamples -/

/-- The designated correct option of the example question. -/
def optA : QuestionOption := ⟨"o1", "Alpha", true⟩

/-- A wrong option of the example question. -/
def optB : QuestionOption := ⟨"o2", "Beta", false⟩

/-- An example question with one correct option. -/
def qOne : Question := ⟨"q1", "Pick one", [optA, optB]⟩

/-- An example question none of whose options carries the correctness flag. -/
def qNone : Question := ⟨"q2", "No right answer", [⟨"o3", "Gamma", false⟩, ⟨"o4", "Delta", false⟩]⟩

/-- The example quiz. -/
def exQuiz : Quiz := ⟨"quiz1", "Example Quiz", [qOne, qNone]⟩

/-- An answer selecting the correct option of the example question. -/
def dupAnswer : SubmittedAnswer := ⟨"q1", "o1"⟩

/-- The graded form of dupAnswer. -/
def dupGraded : GradedAnswer := ⟨"q1", "o1", true⟩

/-- An answer whose questionId matches no question of the example quiz. -/
def unknownAnswer : SubmittedAnswer := ⟨"doesNotExist", "x"⟩

/-! ### Claims about the grading engine -/

/-- Follows the claim wording of C3, not the source: the number of distinct
questionIds in the submitted answer list that resolve to real questions of
the quiz.  Kept separate so it can be compared against what the grading loop
computes. -/
def distinctResolvedCount (quiz : Quiz) (answers : List SubmittedAnswer) : ℕ :=
  (((answers.map (fun a => a.questionId)).dedup).filter
    (fun qid => quiz.questions.any (fun q => q.id == qid))).length

/-- C3 counterexample: two answers for the same real question give
totalPoints 2, while the number of distinct resolved questionIds is 1, so
totalPoints does not equal the distinct count. -/
theorem totalPoints_distinct_count_counterexample :
    (gradeAttempt exQuiz [dupAnswer, dupAnswer]).totalPoints ≠
      distinctResolvedCount exQuiz [dupAnswer, dupAnswer] := by
  decide

/-- C3 (amended): totalPoints equals the number of submitted answers, counted
with multiplicity, whose questionId resolves to a real question of the quiz. -/
theorem totalPoints_counts_matching_answers (quiz : Quiz) (answers : List SubmittedAnswer) :
    (gradeAttempt quiz answers).totalPoints =
      (answers.filter
        (fun a => (quiz.questions.find? (fun q => q.id == a.questionId)).isSome)).length := by
  have h1 : (gradeAttempt quiz answers).totalPoints =
      (answers.filterMap (gradeOne quiz)).length := by rw [gradeAttempt_eq]
  rw [h1, length_filterMap_eq_length_filter]
  exact congrArg List.length (List.filter_congr (fun a _ => by simp [gradeOne]))

/-- C4: answers are processed independently, so a further answer for an
already-answered question still contributes its own totalPoints increment,
its own score increment when correct, and its own output GradedAnswer; no
deduplication by questionId takes place. -/
theorem duplicate_answers_processed_independently (quiz : Quiz)
    (answers : List SubmittedAnswer) (a : SubmittedAnswer) (g : GradedAnswer)
    (h : gradeOne quiz a = some g) :
    gradeAttempt quiz (answers ++ [a]) =
      { score := (gradeAttempt quiz answers).score + (if g.isCorrect then 1 else 0)
        totalPoints := (gradeAttempt quiz answers).totalPoints + 1
        answers := (gradeAttempt quiz answers).answers ++ [g] } :=
  gradeAttempt_append_one quiz answers a g h

/-- C4 witness: submitting the same correct answer twice counts both copies. -/
theorem duplicate_answers_processed_independently_witness :
    gradeOne exQuiz dupAnswer = some dupGraded ∧
    gradeAttempt exQuiz ([dupAnswer] ++ [dupAnswer]) =
      { score := (gradeAttempt exQuiz [dupAnswer]).score + (if dupGraded.isCorrect then 1 else 0)
        totalPoints := (gradeAttempt exQuiz [dupAnswer]).totalPoints + 1
        answers := (gradeAttempt exQuiz [dupAnswer]).answers ++ [dupGraded] } :=
  ⟨by decide,
    duplicate_answers_processed_independently exQuiz [dupAnswer] dupAnswer dupGraded (by decide)⟩

/-- C5: when the answered question is found and has a unique option carrying
the correctness flag (its designated correct option, with option ids not
duplicated), the graded isCorrect is true exactly when the selected option id
equals the id of that designated option; selecting a nonexistent or
non-designated option grades false. -/
theorem isCorrect_iff_selected_designated_option (quiz : Quiz) (a : SubmittedAnswer)
    (question : Question) (c : QuestionOption)
    (hq : quiz.questions.find? (fun q => q.id == a.questionId) = some question)
    (hnd : (question.options.map (fun o => o.id)).Nodup)
    (hc : c ∈ question.options) (hcc : c.isCorrect = true)
    (huniq : ∀ o ∈ question.options, o.isCorrect = true → o = c) :
    gradeOne quiz a = some ⟨a.questionId, a.selectedOptionId, a.selectedOptionId == c.id⟩ := by
  rw [gradeOne, hq, Option.map_some']
  congr 1
  by_cases hsel : a.selectedOptionId = c.id
  · have hfind : question.options.find? (fun opt => opt.id == a.selectedOptionId) = some c := by
      cases hf : question.options.find? (fun opt => opt.id == a.selectedOptionId) with
      | none =>
          rw [List.find?_eq_none] at hf
          exact absurd (by simp [hsel]) (hf c hc)
      | some o =>
          have ho := List.find?_some hf
          rw [beq_iff_eq] at ho
          have homem := List.mem_of_find?_eq_some hf
          have : o = c := List.inj_on_of_nodup_map hnd homem hc (by rw [ho, hsel])
          rw [this]
    rw [hfind]
    simp [hcc, hsel]
  · have hbeq : (a.selectedOptionId == c.id) = false := beq_eq_false_iff_ne.mpr hsel
    cases hf : question.options.find? (fun opt => opt.id == a.selectedOptionId) with
    | none => simp [hbeq]
    | some o =>
        have ho := List.find?_some hf
        rw [beq_iff_eq] at ho
        have homem := List.mem_of_find?_eq_some hf
        have hoc : o.isCorrect = false := by
          cases hocc : o.isCorrect with
          | false => rfl
          | true =>
              have : o = c := huniq o homem hocc
              exact absurd (by rw [← this, ho]) hsel
        simp [hoc, hbeq]

/-- C5 witness: selecting the designated correct option of the example
question grades true via the stated equivalence. -/
theorem isCorrect_iff_selected_designated_option_witness :
    exQuiz.questions.find? (fun q => q.id == dupAnswer.questionId) = some qOne ∧
    (qOne.options.map (fun o => o.id)).Nodup ∧
    optA ∈ qOne.options ∧ optA.isCorrect = true ∧
    (∀ o ∈ qOne.options, o.isCorrect = true → o = optA) ∧
    gradeOne exQuiz dupAnswer =
      some ⟨dupAnswer.questionId, dupAnswer.selectedOptionId,
        dupAnswer.selectedOptionId == optA.id⟩ :=
  ⟨by decide, by decide, by decide, by decide, by decide,
    isCorrect_iff_selected_designated_option exQuiz dupAnswer qOne optA
      (by decide) (by decide) (by decide) (by decide) (by decide)⟩

/-- C6: an answer whose questionId matches no question of the quiz is dropped
entirely (removing it from any position leaves the result unchanged), and an
answer list made only of such answers grades to score 0, totalPoints 0 and an
empty output list. -/
theorem unknown_question_answers_dropped :
    (∀ (quiz : Quiz) (l r : List SubmittedAnswer) (a : SubmittedAnswer),
      quiz.questions.find? (fun q => q.id == a.questionId) = none →
      gradeAttempt quiz (l ++ a :: r) = gradeAttempt quiz (l ++ r)) ∧
    (∀ (quiz : Quiz) (answers : List SubmittedAnswer),
      (∀ a ∈ answers, quiz.questions.find? (fun q => q.id == a.questionId) = none) →
      gradeAttempt quiz answers = { score := 0, totalPoints := 0, answers := [] }) := by
  constructor
  · intro quiz l r a h
    have hg : gradeOne quiz a = none := by simp [gradeOne, h]
    rw [gradeAttempt_eq, gradeAttempt_eq]
    simp [List.filterMap_append, List.filterMap_cons, hg]
  · intro quiz answers h
    have hnil : answers.filterMap (gradeOne quiz) = [] := by
      rw [List.filterMap_eq_nil_iff]
      intro a ha
      simp [gradeOne, h a ha]
    rw [gradeAttempt_eq, hnil]
    rfl

/-- C6 witness: grading a single unrecognized answer yields the zero result. -/
theorem unknown_question_answers_dropped_witness :
    (∀ a ∈ [unknownAnswer], exQuiz.questions.find? (fun q => q.id == a.questionId) = none) ∧
    gradeAttempt exQuiz [unknownAnswer] = { score := 0, totalPoints := 0, answers := [] } :=
  ⟨by decide, unknown_question_answers_dropped.2 exQuiz [unknownAnswer] (by decide)⟩

/-- C7: for every quiz and answer list, score is at most totalPoints and
totalPoints is at most the number of submitted answers. -/
theorem score_le_totalPoints_le_answer_count (quiz : Quiz) (answers : List SubmittedAnswer) :
    (gradeAttempt quiz answers).score ≤ (gradeAttempt quiz answers).totalPoints ∧
    (gradeAttempt quiz answers).totalPoints ≤ answers.length := by
  rw [gradeAttempt_eq]
  exact ⟨List.countP_le_length _, List.length_filterMap_le _ _⟩

/-- C9: an answer to a question none of whose options carries the correctness
flag still counts one totalPoints and appears in the output, but is graded
false, whatever option id was selected; score is unchanged. -/
theorem no_correct_option_always_incorrect (quiz : Quiz)
    (answers : List SubmittedAnswer) (a : SubmittedAnswer) (question : Question)
    (hq : quiz.questions.find? (fun q => q.id == a.questionId) = some question)
    (hnone : ∀ o ∈ question.options, o.isCorrect = false) :
    gradeAttempt quiz (answers ++ [a]) =
      { score := (gradeAttempt quiz answers).score
        totalPoints := (gradeAttempt quiz answers).totalPoints + 1
        answers := (gradeAttempt quiz answers).answers ++
          [⟨a.questionId, a.selectedOptionId, false⟩] } := by
  have hg := gradeOne_no_correct_option quiz a question hq hnone
  rw [gradeAttempt_append_one quiz answers a _ hg]
  simp

/-- C9 witness: answering the flagless example question grades false while
still counting one point of totalPoints. -/
theorem no_correct_option_always_incorrect_witness :
    exQuiz.questions.find? (fun q => q.id == ("q2" : String)) = some qNone ∧
    (∀ o ∈ qNone.options, o.isCorrect = false) ∧
    gradeAttempt exQuiz ([] ++ [⟨"q2", "o3"⟩]) =
      { score := (gradeAttempt exQuiz []).score
        totalPoints := (gradeAttempt exQuiz []).totalPoints + 1
        answers := (gradeAttempt exQuiz []).answers ++ [⟨"q2", "o3", false⟩] } :=
  ⟨by decide, by decide,
    no_correct_option_always_incorrect exQuiz [] ⟨"q2", "o3"⟩ qNone (by decide) (by decide)⟩

/-! ### Claims about the analytics aggregator -/

/-- An attempt row whose group has one attempt and a zero point sum. -/
def c1row : AttemptRow := ⟨"q1", "u1", 0, 0, some "Quiz One", none⟩

/-- An attempt row violating score less or equal totalPoints. -/
def c10row : AttemptRow := ⟨"q1", "u1", 2, 1, none, none⟩

/-- The ten-of-ten attempt of the weighting example. -/
def rowTen : AttemptRow := ⟨"qX", "u1", 10, 10, some "Quiz X", none⟩

/-- The zero-of-ninety attempt of the weighting example. -/
def rowNinety : AttemptRow := ⟨"qX", "u1", 0, 90, some "Quiz X", none⟩

/-- C1 (evaluation at the failing input): for the single attempt with score 0
and totalPoints 0 the quiz group has one attempt and a zero point sum, yet
the aggregator reports averageScore NaN, not 0: the guard of the code tests
the attempt count, which is positive for every group, so the division by the
zero point sum is reached and 0 / 0 is NaN. -/
theorem quizAverage_nan_on_zero_totalPoints :
    (getQuizAnalyticsCore [c1row]).quizAnalytics =
      [{ quizTitle := "Quiz One", attempts := 1, averageScore := JSNum.nan }] ∧
    JSNum.nan ≠ JSNum.num 0 :=
  ⟨by decide, by decide⟩

/-- A single attempt whose group sums make the binary64 evaluation differ
from exact rounding: 23 of 40 points. -/
def row2340 : AttemptRow := ⟨"qY", "u1", 23, 40, some "Quiz Y", none⟩

/-- C2 counterexample: the claim asserts averageScore equals the exact
round(100 * sumScores / sumPoints).  At summed score 23 and summed
totalPoints 40 the program evaluates Math.round((23 / 40) * 100) in binary64,
where (23 / 40) * 100 is strictly below 57.5, so it reports 57; the exact
formula gives round(57.5) = 58. -/
theorem quizAverage_exact_formula_counterexample :
    (getQuizAnalyticsCore [row2340]).quizAnalytics =
      [{ quizTitle := "Quiz Y", attempts := 1, averageScore := JSNum.num 57 }] ∧
    round ((100 : ℚ) * 23 / 40) = 58 ∧ (57 : ℤ) ≠ 58 :=
  ⟨by decide, by norm_num [round_eq], by decide⟩

/-- C2 (amended): for every attempt history and every quiz group with a
nonzero summed totalPoints, the reported record carries the first-encountered
title, the group size, and as averageScore the binary64 evaluation of
Math.round((sumScores / sumPoints) * 100) over the group sums - weighting
attempts by their point volume, not averaging per-attempt percentages; the
double rounding can differ from the exact round(100 * sums ratio), as at sums
23 / 40.  On the concrete pair of attempts (10 of 10, 0 of 90), where the
binary64 evaluation is 10 exactly, the average is 10, not 50. -/
theorem quizAverage_weighted_sum_binary64 :
    (∀ (rows : List AttemptRow) (qid : String) (r0 : AttemptRow) (rest : List AttemptRow),
      quizRows rows qid = r0 :: rest →
      sumPoints (quizRows rows qid) ≠ 0 →
      ({ quizTitle := titleLabel r0, attempts := (quizRows rows qid).length,
         averageScore := JSNum.num (jsAvgRound (sumScores (quizRows rows qid))
           (sumPoints (quizRows rows qid))) } : QuizAnalytic) ∈
        (getQuizAnalyticsCore rows).quizAnalytics) ∧
    (getQuizAnalyticsCore [rowTen, rowNinety]).quizAnalytics =
      [{ quizTitle := "Quiz X", attempts := 2, averageScore := JSNum.num 10 }] := by
  constructor
  · intro rows qid r0 rest hf hnz
    have hlk := quizStats_lookup rows qid r0 rest hf
    have hmem := lookupKey_some_mem _ _ _ hlk
    have hmm := List.mem_map_of_mem toQuizRecord hmem
    have hkey : toQuizRecord (qid,
        { title := titleLabel r0, attempts := (quizRows rows qid).length,
          totalScore := sumScores (quizRows rows qid),
          totalPoints := sumPoints (quizRows rows qid) }) =
        { quizTitle := titleLabel r0, attempts := (quizRows rows qid).length,
          averageScore := JSNum.num (jsAvgRound (sumScores (quizRows rows qid))
            (sumPoints (quizRows rows qid))) } := by
      unfold toQuizRecord averageScoreOf
      have hpos : 0 < (quizRows rows qid).length := by
        rw [hf]; exact Nat.succ_pos _
      rw [if_pos hpos, if_pos hnz]
    exact hkey ▸ hmm
  · decide

/-- C2 witness: the general formula applied to the concrete weighting
example. -/
theorem quizAverage_weighted_sum_binary64_witness :
    quizRows [rowTen, rowNinety] "qX" = rowTen :: [rowNinety] ∧
    sumPoints (quizRows [rowTen, rowNinety] "qX") ≠ 0 ∧
    ({ quizTitle := titleLabel rowTen, attempts := (quizRows [rowTen, rowNinety] "qX").length,
       averageScore := JSNum.num (jsAvgRound (sumScores (quizRows [rowTen, rowNinety] "qX"))
         (sumPoints (quizRows [rowTen, rowNinety] "qX"))) } : QuizAnalytic) ∈
      (getQuizAnalyticsCore [rowTen, rowNinety]).quizAnalytics :=
  ⟨by decide, by decide,
    quizAverage_weighted_sum_binary64.1 [rowTen, rowNinety] "qX" rowTen [rowNinety]
      (by decide) (by decide)⟩

/-- C10: the aggregator does not validate score against totalPoints: a single
attempt with score 2 and totalPoints 1 is accepted and reported with
averageScore 200, which exceeds 100. -/
theorem analytics_accepts_score_above_totalPoints :
    (getQuizAnalyticsCore [c10row]).quizAnalytics =
      [{ quizTitle := "Unknown Quiz", attempts := 1, averageScore := JSNum.num 200 }] ∧
    (100 : ℤ) < 200 :=
  ⟨by decide, by decide⟩

/-! ### The leaderboard sort -/

theorem traineeBefore_iff_of_fin (x y : TopTrainee)
    (hx : x.averageScore.isFin = true) (hy : y.averageScore.isFin = true) :
    traineeBefore x y ↔ y.averageScore.val ≤ x.averageScore.val := by
  cases hxa : x.averageScore <;> cases hya : y.averageScore <;>
    simp_all [traineeBefore, jsSub, JSNum.leZero, JSNum.isFin, JSNum.val, sub_nonpos]

/-- Every userStats entry records a key that occurs among the rows, a
positive attempt count, and the point sum of its group. -/
theorem userStats_entry_props (rows : List AttemptRow) :
    ∀ p ∈ userStats rows,
      p.1 ∈ rows.map (fun r => r.user_id) ∧
      0 < p.2.attempts ∧
      p.2.totalPoints = sumPoints (userRows rows p.1) := by
  intro p hp
  obtain ⟨k, s⟩ := p
  have hkeys : (userStats rows).map Prod.fst = dedupFirst (rows.map (fun r => r.user_id)) := by
    rw [userStats]
    exact keys_groupFold _ _ _ rows
  have hnd : ((userStats rows).map Prod.fst).Nodup := by
    rw [hkeys]
    exact nodup_dedupFirst _
  have hlk : lookupKey k (userStats rows) = some s := lookupKey_eq_some_of_mem k s _ hnd hp
  have hmemk : k ∈ rows.map (fun r => r.user_id) := by
    have hm : k ∈ (userStats rows).map Prod.fst := List.mem_map_of_mem Prod.fst hp
    rw [hkeys] at hm
    exact (mem_dedupFirst _ _).mp hm
  cases hfil : userRows rows k with
  | nil =>
      rw [userStats, lookupKey_groupFold, groupVal] at hlk
      rw [userRows] at hfil
      rw [hfil] at hlk
      exact absurd hlk (by simp)
  | cons r0 rest =>
      have hchar := userStats_lookup rows k r0 rest hfil
      have hs := Option.some.inj (hlk.symm.trans hchar)
      refine ⟨hmemk, ?_, ?_⟩
      · rw [hs]
        simp only [hfil, List.length_cons]
        exact Nat.succ_pos _
      · simp only [hs, hfil]

/-- Under the no-zero-point-sum hypothesis every leaderboard input record
carries a finite averageScore. -/
theorem traineeRecords_fin (rows : List AttemptRow)
    (H : ∀ uid ∈ rows.map (fun r => r.user_id), sumPoints (userRows rows uid) ≠ 0) :
    ∀ e ∈ (userStats rows).map toTraineeRecord, e.averageScore.isFin = true := by
  intro e he
  obtain ⟨p, hp, rfl⟩ := List.mem_map.mp he
  obtain ⟨hmem, hpos, htp⟩ := userStats_entry_props rows p hp
  have hne : p.2.totalPoints ≠ 0 := by
    rw [htp]
    exact H p.1 hmem
  simp [toTraineeRecord, averageScoreOf, hpos, hne, JSNum.isFin]

theorem pairwise_orderedInsert_desc (x : TopTrainee) (l : List TopTrainee)
    (hx : x.averageScore.isFin = true) (hl : ∀ y ∈ l, y.averageScore.isFin = true)
    (hp : l.Pairwise (fun a b => b.averageScore.val ≤ a.averageScore.val)) :
    (l.orderedInsert traineeBefore x).Pairwise
      (fun a b => b.averageScore.val ≤ a.averageScore.val) := by
  induction l with
  | nil => simp
  | cons y l ih =>
      have hy : y.averageScore.isFin = true := hl y (List.mem_cons_self y l)
      have hl' : ∀ z ∈ l, z.averageScore.isFin = true :=
        fun z hz => hl z (List.mem_cons_of_mem y hz)
      rw [List.pairwise_cons] at hp
      rw [List.orderedInsert]
      by_cases h : traineeBefore x y
      · rw [if_pos h]
        have hxy : y.averageScore.val ≤ x.averageScore.val :=
          (traineeBefore_iff_of_fin x y hx hy).mp h
        refine List.Pairwise.cons ?_ (List.Pairwise.cons hp.1 hp.2)
        intro z hz
        rcases List.mem_cons.mp hz with rfl | hz
        · exact hxy
        · exact le_trans (hp.1 z hz) hxy
      · rw [if_neg h]
        have hyx : x.averageScore.val ≤ y.averageScore.val := by
          by_contra hc
          push_neg at hc
          exact h ((traineeBefore_iff_of_fin x y hx hy).mpr (le_of_lt hc))
        refine List.Pairwise.cons ?_ (ih hl' hp.2)
        intro z hz
        rcases (List.mem_orderedInsert traineeBefore).mp hz with rfl | hz
        · exact hyx
        · exact hp.1 z hz

theorem pairwise_insertionSort_desc (l : List TopTrainee)
    (hl : ∀ y ∈ l, y.averageScore.isFin = true) :
    (l.insertionSort traineeBefore).Pairwise
      (fun a b => b.averageScore.val ≤ a.averageScore.val) := by
  induction l with
  | nil => simp
  | cons x l ih =>
      rw [List.insertionSort]
      apply pairwise_orderedInsert_desc
      · exact hl x (List.mem_cons_self x l)
      · intro y hy
        exact hl y (List.mem_cons_of_mem x ((List.mem_insertionSort traineeBefore).mp hy))
      · exact ih (fun y hy => hl y (List.mem_cons_of_mem x hy))

/-- The attempt rows of the fifteen-user leaderboard example: user k scores
k of 1, submitted in increasing order of average. -/
def mkU (k : ℕ) : AttemptRow := ⟨"q", "u" ++ toString k, (k : ℤ), 1, some "Q", none⟩

/-- Fifteen distinct users with strictly increasing averages on input. -/
def c8rows : List AttemptRow :=
  [mkU 1, mkU 2, mkU 3, mkU 4, mkU 5, mkU 6, mkU 7, mkU 8, mkU 9, mkU 10,
   mkU 11, mkU 12, mkU 13, mkU 14, mkU 15]

/-- The expected leaderboard of c8rows: the ten highest averages descending. -/
def c8expected : List TopTrainee :=
  [⟨"u15", "Unknown User", 1, JSNum.num 1500⟩, ⟨"u14", "Unknown User", 1, JSNum.num 1400⟩,
   ⟨"u13", "Unknown User", 1, JSNum.num 1300⟩, ⟨"u12", "Unknown User", 1, JSNum.num 1200⟩,
   ⟨"u11", "Unknown User", 1, JSNum.num 1100⟩, ⟨"u10", "Unknown User", 1, JSNum.num 1000⟩,
   ⟨"u9", "Unknown User", 1, JSNum.num 900⟩, ⟨"u8", "Unknown User", 1, JSNum.num 800⟩,
   ⟨"u7", "Unknown User", 1, JSNum.num 700⟩, ⟨"u6", "Unknown User", 1, JSNum.num 600⟩]

/-- C8: whenever every user group has a nonzero point sum (all averages
finite, so the comparator is consistent), the leaderboard is pairwise
descending in averageScore, has length ten or the number of distinct users
when fewer, consists of records of the user groups, and dominates every
excluded user record; and the concrete fifteen-user history with strictly
increasing averages yields exactly the ten highest users in descending
order. -/
theorem leaderboard_sorted_desc_top10 :
    (∀ (rows : List AttemptRow),
      (∀ uid ∈ rows.map (fun r => r.user_id), sumPoints (userRows rows uid) ≠ 0) →
      ((getQuizAnalyticsCore rows).topTrainees.Pairwise
          (fun a b => b.averageScore.val ≤ a.averageScore.val) ∧
        (getQuizAnalyticsCore rows).topTrainees.length =
          min 10 (dedupFirst (rows.map (fun r => r.user_id))).length ∧
        (∀ e ∈ (getQuizAnalyticsCore rows).topTrainees,
          e ∈ (userStats rows).map toTraineeRecord) ∧
        (∀ e ∈ (getQuizAnalyticsCore rows).topTrainees,
          ∀ p ∈ (userStats rows).map toTraineeRecord,
            p ∉ (getQuizAnalyticsCore rows).topTrainees →
            p.averageScore.val ≤ e.averageScore.val))) ∧
    (getQuizAnalyticsCore c8rows).topTrainees = c8expected := by
  constructor
  · intro rows H
    have hfin := traineeRecords_fin rows H
    have hS := pairwise_insertionSort_desc ((userStats rows).map toTraineeRecord) hfin
    have htop : (getQuizAnalyticsCore rows).topTrainees =
        (((userStats rows).map toTraineeRecord).insertionSort traineeBefore).take 10 := rfl
    refine ⟨?_, ?_, ?_, ?_⟩
    · rw [htop]
      exact List.Pairwise.sublist (List.take_sublist _ _) hS
    · rw [htop, List.length_take, List.length_insertionSort, List.length_map]
      have hkeys : (userStats rows).map Prod.fst =
          dedupFirst (rows.map (fun r => r.user_id)) := by
        rw [userStats]
        exact keys_groupFold _ _ _ rows
      rw [← hkeys, List.length_map]
    · intro e he
      rw [htop] at he
      exact (List.mem_insertionSort traineeBefore).mp (List.take_subset _ _ he)
    · intro e he p hpm hpn
      rw [htop] at he hpn
      have hpS : p ∈ ((userStats rows).map toTraineeRecord).insertionSort traineeBefore :=
        (List.mem_insertionSort traineeBefore).mpr hpm
      have hpD : p ∈ (((userStats rows).map toTraineeRecord).insertionSort traineeBefore).drop 10 := by
        have h1 := (List.take_append_drop 10
          (((userStats rows).map toTraineeRecord).insertionSort traineeBefore)).symm
        rw [h1] at hpS
        rcases List.mem_append.mp hpS with h | h
        · exact absurd h hpn
        · exact h
      exact List.Sorted.rel_of_mem_take_of_mem_drop hS he hpD
  · decide

/-- C8 witness: the general leaderboard properties applied to the concrete
fifteen-user history. -/
theorem leaderboard_sorted_desc_top10_witness :
    (∀ uid ∈ c8rows.map (fun r => r.user_id), sumPoints (userRows c8rows uid) ≠ 0) ∧
    ((getQuizAnalyticsCore c8rows).topTrainees.Pairwise
        (fun a b => b.averageScore.val ≤ a.averageScore.val) ∧
      (getQuizAnalyticsCore c8rows).topTrainees.length =
        min 10 (dedupFirst (c8rows.map (fun r => r.user_id))).length ∧
      (∀ e ∈ (getQuizAnalyticsCore c8rows).topTrainees,
        e ∈ (userStats c8rows).map toTraineeRecord) ∧
      (∀ e ∈ (getQuizAnalyticsCore c8rows).topTrainees,
        ∀ p ∈ (userStats c8rows).map toTraineeRecord,
          p ∉ (getQuizAnalyticsCore c8rows).topTrainees →
          p.averageScore.val ≤ e.averageScore.val)) :=
  ⟨by decide, leaderboard_sorted_desc_top10.1 c8rows (by decide)⟩

end CSIA
